import Mathlib

/-!
Shallow embedding of `src/server.js`, a file-backed TODO CRUD server.

The JavaScript program keeps its whole state in one JSON file: every request
handler reads the file (`readTodosFromFile`), possibly mutates the in-memory
array, and writes it back (`writeTodosToFile`).  We embed:

* `Todo` — the record stored in the file (`id`, `title`, `completed`,
  `createTime`), with `id : Int` standing for the JS number (ids produced by
  the program are integers) and the two text fields as `String`.
* `JVal` — the fragment of JavaScript values that can reach the handlers
  through a parsed JSON request body (`undefined` for an absent field), with
  JS truthiness and `typeof x === "string"`.
* the JSON codec: `stringifyTodos` mirrors `JSON.stringify(todos, null, 2)`
  character by character (2-space indent, key order `id,title,completed,
  createTime`, JS string escaping), and `parseTodos` mirrors `JSON.parse`
  followed by the (implicit) "array of todos" reading the program gives the
  result; it accepts arbitrary inter-token whitespace and returns `none`
  where `JSON.parse` would throw or the document is not an array of
  well-formed todos.
* `FileState` — the backing file: `absent` (ENOENT) or `content cs` where
  `cs` is the file text as a character list.
* the store functions `readTodosFromFile`, `writeTodosToFile`,
  `generateUniqueId`, and the five route handlers, each as a function from
  its request data and the file state to an `HResult` (the JSON envelope sent
  back, tagged by status code) and the new file state.  I/O itself is modelled
  as succeeding; the error paths the program has (`JSON.parse` failure wrapped
  into `读取 TODO 文件失败：…`, and the `TypeError` from calling `.trim()` on a
  truthy non-string `title` in PUT) are carried by `Err`.
-/

/-- A stored todo record, as serialized into `todos.json`. -/
structure Todo where
  id : Int
  title : String
  completed : Bool
  createTime : String
deriving Repr, DecidableEq

/-- The JavaScript values a parsed JSON request-body field can hold (plus
`undefined` for a field that is absent from the body).  Numbers are modelled
as integers; no claim depends on fractional numbers. -/
inductive JVal where
  | undefined
  | null
  | bool (b : Bool)
  | num (n : Int)
  | str (s : String)
deriving Repr, DecidableEq

/-- JavaScript truthiness of a `JVal` (what `if (x)` / `Boolean(x)` yield). -/
def JVal.truthy : JVal → Bool
  | .undefined => false
  | .null => false
  | .bool b => b
  | .num n => n != 0
  | .str s => s != ""

/-- Whether `typeof x === "string"` holds. -/
def JVal.isStr : JVal → Bool
  | .str _ => true
  | _ => false

/-- A parsed JSON request body as the handlers destructure it:
`const { title, completed } = req.body`. -/
structure ReqBody where
  title : JVal
  completed : JVal
deriving Repr, DecidableEq

/-- Whitespace for JSON tokenization and for `trim` / `parseInt` skipping
(the ASCII whitespace the program ever meets). -/
def isWsChar (c : Char) : Bool :=
  c = ' ' || c = '\n' || c = '\t' || c = '\r'

/-- Model of `String.prototype.trim()`: drop whitespace from both ends. -/
def jsTrim (s : String) : String :=
  ⟨((s.data.dropWhile isWsChar).reverse.dropWhile isWsChar).reverse⟩

/-- The character for a decimal digit value below 10. -/
def digitChar (d : Nat) : Char :=
  match d with
  | 0 => '0' | 1 => '1' | 2 => '2' | 3 => '3' | 4 => '4'
  | 5 => '5' | 6 => '6' | 7 => '7' | 8 => '8' | _ => '9'

/-- The decimal digit value of a character, `none` if not `0`-`9` (code
points 0x30-0x39). -/
def digitVal? (c : Char) : Option Nat :=
  if 0x30 ≤ c.toNat ∧ c.toNat ≤ 0x39 then some (c.toNat - 0x30) else none

def isDigitChar (c : Char) : Bool := (digitVal? c).isSome

/-- The hexadecimal digit value of a character, `none` if not `0-9a-fA-F`
(the letter ranges are 0x61-0x66 and 0x41-0x46). -/
def hexVal? (c : Char) : Option Nat :=
  match digitVal? c with
  | some d => some d
  | none =>
    if 0x61 ≤ c.toNat ∧ c.toNat ≤ 0x66 then some (c.toNat - 0x57)
    else if 0x41 ≤ c.toNat ∧ c.toNat ≤ 0x46 then some (c.toNat - 0x37)
    else none

/-- The lowercase hexadecimal digit character for a value below 16. -/
def hexDigitChar (d : Nat) : Char :=
  match d with
  | 0 => '0' | 1 => '1' | 2 => '2' | 3 => '3' | 4 => '4'
  | 5 => '5' | 6 => '6' | 7 => '7' | 8 => '8' | 9 => '9'
  | 10 => 'a' | 11 => 'b' | 12 => 'c' | 13 => 'd' | 14 => 'e' | _ => 'f'

/-- Decimal digit characters of a positive number, most significant first.
The first argument is fuel; `n` itself is always enough fuel since `n / 10`
shrinks below any `fuel ≥ n`. -/
def natCharsAux : Nat → Nat → List Char
  | 0, _ => []
  | _, 0 => []
  | fuel + 1, n + 1 =>
    natCharsAux fuel ((n + 1) / 10) ++ [digitChar ((n + 1) % 10)]

/-- Decimal rendering of a natural number, as `String(n)` in JS prints it. -/
def natChars (n : Nat) : List Char :=
  if n = 0 then ['0'] else natCharsAux n n

/-- Decimal rendering of an integer, as `JSON.stringify` prints an integral
JS number. -/
def intChars (i : Int) : List Char :=
  if i < 0 then '-' :: natChars (-i).toNat else natChars i.toNat

/-- JSON escaping of one character, exactly as `JSON.stringify` escapes
string contents: `"` and `\` get a backslash, the five short control escapes
are used where they exist, all other controls become `\u00XX`, and every
other character is emitted verbatim. -/
def escapeChar (c : Char) : List Char :=
  if c = '"' then ['\\', '"']
  else if c = '\\' then ['\\', '\\']
  else if c = '\x08' then ['\\', 'b']
  else if c = '\t' then ['\\', 't']
  else if c = '\n' then ['\\', 'n']
  else if c = '\x0c' then ['\\', 'f']
  else if c = '\r' then ['\\', 'r']
  else if c.toNat < 0x20 then
    ['\\', 'u', '0', '0', hexDigitChar (c.toNat / 16), hexDigitChar (c.toNat % 16)]
  else [c]

/-- JSON escaping of a character sequence. -/
def escapeList : List Char → List Char
  | [] => []
  | c :: cs => escapeChar c ++ escapeList cs

/-- A JSON string literal for `s`: quote, escaped contents, quote. -/
def quoteStr (s : String) : List Char :=
  '"' :: (escapeList s.data ++ ['"'])

/-- JSON rendering of a boolean. -/
def boolChars (b : Bool) : List Char :=
  if b then ['t', 'r', 'u', 'e'] else ['f', 'a', 'l', 's', 'e']

/-- One array element of `JSON.stringify(todos, null, 2)`: the object is
indented two spaces, its members four, keys in the insertion order the
program uses when it builds a todo. -/
def todoItemChars (t : Todo) : List Char :=
  [' ', ' ', '{', '\n',
   ' ', ' ', ' ', ' ', '"', 'i', 'd', '"', ':', ' ']
  ++ intChars t.id
  ++ [',', '\n', ' ', ' ', ' ', ' ', '"', 't', 'i', 't', 'l', 'e', '"', ':', ' ']
  ++ quoteStr t.title
  ++ [',', '\n', ' ', ' ', ' ', ' ', '"', 'c', 'o', 'm', 'p', 'l', 'e', 't', 'e', 'd', '"', ':', ' ']
  ++ boolChars t.completed
  ++ [',', '\n', ' ', ' ', ' ', ' ', '"', 'c', 'r', 'e', 'a', 't', 'e', 'T', 'i', 'm', 'e', '"', ':', ' ']
  ++ quoteStr t.createTime
  ++ ['\n', ' ', ' ', '}']

/-- The comma-and-newline separated element list of the array body. -/
def todoItemsChars (t : Todo) : List Todo → List Char
  | [] => todoItemChars t
  | u :: rest => todoItemChars t ++ [',', '\n'] ++ todoItemsChars u rest

/-- The full text `JSON.stringify(todos, null, 2)` writes for a todo array:
`[]` for the empty array, otherwise the elements between `[\n` and `\n]`. -/
def stringifyTodos : List Todo → List Char
  | [] => ['[', ']']
  | t :: rest => '[' :: '\n' :: (todoItemsChars t rest ++ ['\n', ']'])

/-- Skip inter-token JSON whitespace. -/
def skipWs (cs : List Char) : List Char := cs.dropWhile isWsChar

/-- Consume one expected character. -/
def expectChar (c : Char) : List Char → Option (List Char)
  | [] => none
  | x :: rest => if x = c then some rest else none

/-- Consume an expected literal character sequence. -/
def expectSeq : List Char → List Char → Option (List Char)
  | [], cs => some cs
  | p :: ps, c :: cs => if c = p then expectSeq ps cs else none
  | _ :: _, [] => none

/-- Combine four hex digits into a code point value. -/
def hex4 (a b c d : Char) : Option Nat := do
  let va ← hexVal? a
  let vb ← hexVal? b
  let vc ← hexVal? c
  let vd ← hexVal? d
  some (((va * 16 + vb) * 16 + vc) * 16 + vd)

/-- The character a short JSON escape `\k` denotes, `none` for an invalid
escape character. -/
def unescapeChar (k : Char) : Option Char :=
  if k = '"' then some '"'
  else if k = '\\' then some '\\'
  else if k = '/' then some '/'
  else if k = 'b' then some '\x08'
  else if k = 'f' then some '\x0c'
  else if k = 'n' then some '\n'
  else if k = 'r' then some '\r'
  else if k = 't' then some '\t'
  else none

/-- Parse the body of a JSON string literal after its opening quote:
returns the decoded characters and the input after the closing quote. -/
def parseJStringBody : List Char → Option (List Char × List Char)
  | [] => none
  | c :: cs =>
    if c = '"' then some ([], cs)
    else if c = '\\' then
      match cs with
      | [] => none
      | k :: cs1 =>
        if k = 'u' then
          match cs1 with
          | a :: b :: c2 :: d :: cs2 => do
            let v ← hex4 a b c2 d
            let (body, rest) ← parseJStringBody cs2
            some (Char.ofNat v :: body, rest)
          | _ => none
        else do
          let e ← unescapeChar k
          let (body, rest) ← parseJStringBody cs1
          some (e :: body, rest)
    else do
      let (body, rest) ← parseJStringBody cs
      some (c :: body, rest)

/-- Parse a JSON string literal including its quotes. -/
def parseJString (cs : List Char) : Option (String × List Char) := do
  let rest ← expectChar '"' cs
  let (body, rest1) ← parseJStringBody rest
  some (⟨body⟩, rest1)

/-- Accumulate the decimal value of a digit-character run. -/
def digitsFold (acc : Nat) (cs : List Char) : Nat :=
  cs.foldl (fun a c => 10 * a + (digitVal? c).getD 0) acc

/-- Parse a nonempty run of decimal digits, greedily. -/
def parseNatNum (cs : List Char) : Option (Nat × List Char) :=
  let ds := cs.takeWhile isDigitChar
  if ds.isEmpty then none
  else some (digitsFold 0 ds, cs.drop ds.length)

/-- Parse an integral JSON number (optional minus sign, digit run). -/
def parseIntNum : List Char → Option (Int × List Char)
  | [] => none
  | c :: cs =>
    if c = '-' then
      match parseNatNum cs with
      | some (n, rest) => some (-(n : Int), rest)
      | none => none
    else
      match parseNatNum (c :: cs) with
      | some (n, rest) => some ((n : Int), rest)
      | none => none

/-- Parse a JSON boolean literal. -/
def parseBool (cs : List Char) : Option (Bool × List Char) :=
  match expectSeq ['t', 'r', 'u', 'e'] cs with
  | some rest => some (true, rest)
  | none =>
    match expectSeq ['f', 'a', 'l', 's', 'e'] cs with
    | some rest => some (false, rest)
    | none => none

/-- Consume an expected object key and its colon: whitespace, the quoted
key name, whitespace, `:`. -/
def expectKey (name : List Char) (cs : List Char) : Option (List Char) := do
  let r1 ← expectChar '"' (skipWs cs)
  let r2 ← expectSeq name r1
  let r3 ← expectChar '"' r2
  expectChar ':' (skipWs r3)

/-- Parse one todo object with the schema the program stores:
keys `id`, `title`, `completed`, `createTime` in order. -/
def parseTodoObj (cs : List Char) : Option (Todo × List Char) := do
  let r1 ← expectChar '{' (skipWs cs)
  let r2 ← expectKey ['i', 'd'] r1
  let (i, r3) ← parseIntNum (skipWs r2)
  let r4 ← expectChar ',' (skipWs r3)
  let r5 ← expectKey ['t', 'i', 't', 'l', 'e'] r4
  let (ti, r6) ← parseJString (skipWs r5)
  let r7 ← expectChar ',' (skipWs r6)
  let r8 ← expectKey ['c', 'o', 'm', 'p', 'l', 'e', 't', 'e', 'd'] r7
  let (co, r9) ← parseBool (skipWs r8)
  let r10 ← expectChar ',' (skipWs r9)
  let r11 ← expectKey ['c', 'r', 'e', 'a', 't', 'e', 'T', 'i', 'm', 'e'] r10
  let (ct, r12) ← parseJString (skipWs r11)
  let r13 ← expectChar '}' (skipWs r12)
  some (⟨i, ti, co, ct⟩, r13)

/-- Parse a comma-separated todo list up to and including the closing `]`.
The fuel only bounds the number of elements; callers pass the input length,
which is ample since every element consumes at least one character. -/
def parseItemsAux : Nat → List Char → Option (List Todo × List Char)
  | 0, _ => none
  | fuel + 1, cs => do
    let (t, r) ← parseTodoObj cs
    match skipWs r with
    | ',' :: r1 => do
      let (ts, r2) ← parseItemsAux fuel r1
      some (t :: ts, r2)
    | ']' :: r1 => some ([t], r1)
    | _ => none

/-- Parse a whole file as a JSON array of todos; `none` models a thrown
`JSON.parse` error (or a document that is not an array of todos, which the
program would only trip over later — see `readTodosFromFile`). -/
def parseTodos (cs : List Char) : Option (List Todo) := do
  let r ← expectChar '[' (skipWs cs)
  match skipWs r with
  | ']' :: r1 => if (skipWs r1).isEmpty then some [] else none
  | _ => do
    let (ts, r2) ← parseItemsAux (r.length + 1) r
    if (skipWs r2).isEmpty then some ts else none

/-- The backing file `todos.json`: absent (ENOENT on read) or present with
some text. -/
inductive FileState where
  | absent
  | content (cs : List Char)
deriving Repr, DecidableEq

/-- The error values the handlers can catch.  `storageRead cs` stands for
the error thrown in `readTodosFromFile` when `JSON.parse` fails on the file
text `cs` (its message is `读取 TODO 文件失败：` followed by the parse error
text, which depends on the JS runtime; we carry the offending text instead).
`typeError msg` stands for a `TypeError` thrown inside a handler. -/
inductive Err where
  | storageRead (cs : List Char)
  | typeError (msg : String)
deriving Repr, DecidableEq

/-- Model of `readTodosFromFile`: read + `JSON.parse`; on ENOENT write an
empty array into the file and return `[]`; on a parse failure throw (the
caller catches it).  Returns the result and the possibly-changed file. -/
def readTodosFromFile : FileState → Except Err (List Todo) × FileState
  | .absent => (.ok [], .content (stringifyTodos []))
  | .content cs =>
    match parseTodos cs with
    | some ts => (.ok ts, .content cs)
    | none => (.error (.storageRead cs), .content cs)

/-- Model of `writeTodosToFile`: overwrite the file with the pretty-printed
array.  `fs.writeFile` failures are outside the model (no claim exercises
them), so the write always succeeds. -/
def writeTodosToFile (ts : List Todo) (_fs : FileState) : FileState :=
  .content (stringifyTodos ts)

/-- The maximum id of a nonempty todo list, as `Math.max(...todos.map(t => t.id))`
computes it. -/
def maxId (t : Todo) (rest : List Todo) : Int :=
  rest.foldl (fun a u => max a u.id) t.id

/-- The id the Store assigns next (the spec's `nextId`): 1 for an empty
collection, the maximal stored id plus one otherwise. -/
def nextId : List Todo → Int
  | [] => 1
  | t :: rest => maxId t rest + 1

/-- Model of `generateUniqueId`: re-read the file, return 1 for an empty
collection, otherwise the maximum id plus one. -/
def generateUniqueId (fs : FileState) : Except Err Int × FileState :=
  match readTodosFromFile fs with
  | (.ok [], fs1) => (.ok 1, fs1)
  | (.ok (t :: rest), fs1) => (.ok (maxId t rest + 1), fs1)
  | (.error e, fs1) => (.error e, fs1)

/-- Model of `parseInt(s)` with no radix argument: skip leading whitespace,
an optional sign, then either a `0x`/`0X` hexadecimal digit run or a decimal
digit run, stopping at the first unusable character; `none` is `NaN`. -/
def jsParseInt (s : String) : Option Int :=
  let cs := s.data.dropWhile isWsChar
  let signed : Bool × List Char :=
    match cs with
    | '-' :: rest => (true, rest)
    | '+' :: rest => (false, rest)
    | _ => (false, cs)
  let body := signed.2
  let mag : Option Nat :=
    match body with
    | '0' :: 'x' :: rest =>
      let ds := rest.takeWhile (fun c => (hexVal? c).isSome)
      if ds.isEmpty then none
      else some (ds.foldl (fun a c => 16 * a + (hexVal? c).getD 0) 0)
    | '0' :: 'X' :: rest =>
      let ds := rest.takeWhile (fun c => (hexVal? c).isSome)
      if ds.isEmpty then none
      else some (ds.foldl (fun a c => 16 * a + (hexVal? c).getD 0) 0)
    | _ =>
      match parseNatNum body with
      | some (n, _) => some n
      | none => none
  match mag with
  | none => none
  | some n => some (if signed.1 then -(n : Int) else (n : Int))

/-- Strict equality `item.id === todoId` where `todoId` came from
`parseInt` — `none` is `NaN`, which is equal to nothing. -/
def idEq (i : Int) (p : Option Int) : Bool :=
  match p with
  | some n => i == n
  | none => false

/-- How a `parseInt` result renders in a template literal (`NaN` when the
parse failed). -/
def showTodoId (p : Option Int) : String :=
  match p with
  | some n => toString n
  | none => "NaN"

/-- Replace the first element satisfying the predicate — the effect of
`todos[todoIndex] = updatedTodo` after `todoIndex = findIndex(...)`. -/
def setFirst (p : Todo → Bool) (u : Todo) : List Todo → List Todo
  | [] => []
  | t :: rest => if p t then u :: rest else t :: setFirst p u rest

/-- Remove the first element satisfying the predicate — the effect of
`todos.splice(todoIndex, 1)` after `todoIndex = findIndex(...)`. -/
def deleteFirst (p : Todo → Bool) : List Todo → List Todo
  | [] => []
  | t :: rest => if p t then rest else t :: deleteFirst p rest

/-- The JSON envelope a handler responds with, tagged by its meaning; the
status code is `HResult.status`. -/
inductive HResult where
  | okList (count : Nat) (todos : List Todo)
  | okTodo (t : Todo)
  | okUpdated (msg : String) (t : Todo)
  | okDeleted (msg : String) (id : Option Int)
  | created (msg : String) (t : Todo)
  | badRequest (msg : String)
  | notFound (msg : String)
  | serverError (e : Err)
deriving Repr, DecidableEq

/-- The HTTP status code of a response. -/
def HResult.status : HResult → Nat
  | .okList _ _ => 200
  | .okTodo _ => 200
  | .okUpdated _ _ => 200
  | .okDeleted _ _ => 200
  | .created _ _ => 201
  | .badRequest _ => 400
  | .notFound _ => 404
  | .serverError _ => 500

/-- The `success` field of the response envelope. -/
def HResult.success : HResult → Bool
  | .okList _ _ => true
  | .okTodo _ => true
  | .okUpdated _ _ => true
  | .okDeleted _ _ => true
  | .created _ _ => true
  | .badRequest _ => false
  | .notFound _ => false
  | .serverError _ => false

/-- Handler for `GET /todo`: read everything, answer 200 with count and
data, or 500 on a storage error. -/
def getTodos (fs : FileState) : HResult × FileState :=
  match readTodosFromFile fs with
  | (.ok ts, fs1) => (.okList ts.length ts, fs1)
  | (.error e, fs1) => (.serverError e, fs1)

/-- Handler for `GET /todo/:id`: parse the id, look it up with strict
equality, 404 with a message naming the id when absent. -/
def getTodoById (idParam : String) (fs : FileState) : HResult × FileState :=
  let todoId := jsParseInt idParam
  match readTodosFromFile fs with
  | (.ok ts, fs1) =>
    match ts.find? (fun t => idEq t.id todoId) with
    | some t => (.okTodo t, fs1)
    | none => (.notFound ("未找到 ID 为 " ++ showTodoId todoId ++ " 的 TODO"), fs1)
  | (.error e, fs1) => (.serverError e, fs1)

/-- The `completed` value a new todo gets: the destructuring default turns
an absent field into `false`, then `Boolean(completed)` is truthiness. -/
def postCompleted (v : JVal) : Bool :=
  match v with
  | .undefined => false
  | v => v.truthy

/-- Handler for `POST /todo`: reject a missing/falsy/non-string title with
400; otherwise read the collection, build the new todo (fresh id from
`generateUniqueId`, trimmed title, boolean-coerced `completed`, the current
time `now` as `createTime`), push it and write the file back. -/
def postTodo (body : ReqBody) (now : String) (fs : FileState) : HResult × FileState :=
  match body.title with
  | .str s =>
    if s = "" then (.badRequest "创建失败：title 是必填项，且必须是字符串", fs)
    else
      match readTodosFromFile fs with
      | (.ok ts, fs1) =>
        match generateUniqueId fs1 with
        | (.ok newId, fs2) =>
          let newTodo : Todo := ⟨newId, jsTrim s, postCompleted body.completed, now⟩
          (.created "TODO 创建成功" newTodo, writeTodosToFile (ts ++ [newTodo]) fs2)
        | (.error e, fs2) => (.serverError e, fs2)
      | (.error e, fs1) => (.serverError e, fs1)
  | _ => (.badRequest "创建失败：title 是必填项，且必须是字符串", fs)

/-- The spread-merge PUT builds:
`{ ...old, ...(title && {title: title.trim()}), ...(completed !== undefined && {completed: Boolean(completed)}) }`.
A truthy non-string `title` makes `title.trim()` throw a `TypeError`, which
the handler's catch turns into a 500. -/
def mergeTodo (old : Todo) (body : ReqBody) : Except Err Todo :=
  let newCompleted := if body.completed = .undefined then old.completed else body.completed.truthy
  if body.title.truthy then
    match body.title with
    | .str s => .ok ⟨old.id, jsTrim s, newCompleted, old.createTime⟩
    | _ => .error (.typeError "title.trim is not a function")
  else .ok ⟨old.id, old.title, newCompleted, old.createTime⟩

/-- Handler for `PUT /todo/:id`: find the todo by parsed id (404 when
absent), merge the body into it, store the merged todo at its index and
write the file back. -/
def putTodo (idParam : String) (body : ReqBody) (fs : FileState) : HResult × FileState :=
  let todoId := jsParseInt idParam
  match readTodosFromFile fs with
  | (.ok ts, fs1) =>
    match ts.find? (fun t => idEq t.id todoId) with
    | none => (.notFound ("修改失败：ID 为 " ++ showTodoId todoId ++ " 的 TODO 不存在"), fs1)
    | some old =>
      match mergeTodo old body with
      | .ok u =>
        (.okUpdated "TODO 修改成功" u,
         writeTodosToFile (setFirst (fun t => idEq t.id todoId) u ts) fs1)
      | .error e => (.serverError e, fs1)
  | (.error e, fs1) => (.serverError e, fs1)

/-- Handler for `DELETE /todo/:id`: find the todo by parsed id (404 when
absent), splice it out and write the file back; the response data is the
parsed id. -/
def deleteTodo (idParam : String) (fs : FileState) : HResult × FileState :=
  let todoId := jsParseInt idParam
  match readTodosFromFile fs with
  | (.ok ts, fs1) =>
    match ts.find? (fun t => idEq t.id todoId) with
    | none => (.notFound ("删除失败：ID 为 " ++ showTodoId todoId ++ " 的 TODO 不存在"), fs1)
    | some _ =>
      (.okDeleted ("ID 为 " ++ showTodoId todoId ++ " 的 TODO 已删除") todoId,
       writeTodosToFile (deleteFirst (fun t => idEq t.id todoId) ts) fs1)
  | (.error e, fs1) => (.serverError e, fs1)

/-- The spec's collection invariant on a todo list: all ids unique and
positive. -/
def goodIds (ts : List Todo) : Prop :=
  ts.Pairwise (fun a b => a.id ≠ b.id) ∧ ∀ t ∈ ts, 0 < t.id

/-- A backing file that holds a parseable collection satisfying the id
invariant. -/
def StateOk (fs : FileState) : Prop :=
  ∃ cs ts, fs = .content cs ∧ parseTodos cs = some ts ∧ goodIds ts

instance : DecidablePred goodIds := fun ts => by
  unfold goodIds; infer_instance

/-! ### Number printing round-trip -/

theorem skipWs_cons_of_ws {c : Char} (h : isWsChar c = true) (cs : List Char) :
    skipWs (c :: cs) = skipWs cs := by
  simp [skipWs, List.dropWhile, h]

theorem skipWs_cons_of_not_ws {c : Char} (h : isWsChar c = false) (cs : List Char) :
    skipWs (c :: cs) = c :: cs := by
  simp [skipWs, List.dropWhile, h]

theorem isDigit_digitChar (d : Nat) : isDigitChar (digitChar d) = true := by
  unfold digitChar
  split <;> decide

theorem digitVal_digitChar (d : Nat) (h : d < 10) :
    digitVal? (digitChar d) = some d := by
  interval_cases d <;> decide

theorem natCharsAux_digits (fuel n : Nat) :
    ∀ c ∈ natCharsAux fuel n, isDigitChar c = true := by
  induction fuel generalizing n with
  | zero => intro c hc; simp [natCharsAux] at hc
  | succ fuel ih =>
    match n with
    | 0 => intro c hc; simp [natCharsAux] at hc
    | m + 1 =>
      intro c hc
      rw [natCharsAux] at hc
      rcases List.mem_append.1 hc with h1 | h2
      · exact ih _ c h1
      · simp at h2; subst h2; exact isDigit_digitChar _

theorem digitsFold_natCharsAux (fuel : Nat) :
    ∀ n acc, n ≤ fuel →
      digitsFold acc (natCharsAux fuel n)
        = acc * 10 ^ (natCharsAux fuel n).length + n := by
  induction fuel with
  | zero =>
    intro n acc h
    interval_cases n
    simp [natCharsAux, digitsFold]
  | succ fuel ih =>
    intro n acc h
    match n with
    | 0 => simp [natCharsAux, digitsFold]
    | m + 1 =>
      rw [natCharsAux]
      have hq : (m + 1) / 10 ≤ fuel := by
        have := Nat.div_lt_self (Nat.succ_pos m) (by norm_num : 1 < 10)
        omega
      have hfold : digitsFold acc (natCharsAux fuel ((m + 1) / 10) ++ [digitChar ((m + 1) % 10)])
          = 10 * digitsFold acc (natCharsAux fuel ((m + 1) / 10))
            + ((m + 1) % 10) := by
        unfold digitsFold
        rw [List.foldl_append]
        simp [digitVal_digitChar ((m + 1) % 10) (Nat.mod_lt _ (by norm_num))]
      rw [hfold, ih _ acc hq]
      rw [List.length_append]
      simp only [List.length_cons, List.length_nil]
      rw [pow_succ, ← mul_assoc]
      generalize acc * 10 ^ (natCharsAux fuel ((m + 1) / 10)).length = A
      omega

theorem natCharsAux_ne_nil (fuel n : Nat) (hn : 0 < n) (h : n ≤ fuel) :
    natCharsAux fuel n ≠ [] := by
  intro hcontra
  have := digitsFold_natCharsAux fuel n 0 h
  rw [hcontra] at this
  simp [digitsFold] at this
  omega

theorem natChars_digits (n : Nat) : ∀ c ∈ natChars n, isDigitChar c = true := by
  unfold natChars
  split
  · intro c hc; simp at hc; subst hc; rfl
  · exact natCharsAux_digits n n

theorem digitsFold_natChars (n : Nat) : digitsFold 0 (natChars n) = n := by
  unfold natChars
  split
  · subst_vars; rfl
  · have := digitsFold_natCharsAux n n 0 (le_refl n)
    simpa using this

theorem natChars_ne_nil (n : Nat) : natChars n ≠ [] := by
  unfold natChars
  split
  · simp
  · exact natCharsAux_ne_nil n n (Nat.pos_of_ne_zero (by assumption)) (le_refl n)

theorem takeWhile_append_of_all {p : Char → Bool} (xs ys : List Char)
    (hx : ∀ c ∈ xs, p c = true) :
    (xs ++ ys).takeWhile p = xs ++ ys.takeWhile p := by
  induction xs with
  | nil => simp
  | cons x xs ih =>
    have hpx : p x = true := hx x (by simp)
    simp [List.takeWhile, hpx]
    exact ih fun c hc => hx c (by simp [hc])

/-- If the remainder does not begin with a digit, `parseNatNum` on the
printed digits of `n` followed by the remainder recovers exactly `n`. -/
theorem parseNatNum_natChars (n : Nat) (rest : List Char)
    (hr : rest.takeWhile isDigitChar = []) :
    parseNatNum (natChars n ++ rest) = some (n, rest) := by
  unfold parseNatNum
  rw [takeWhile_append_of_all _ _ (natChars_digits n), hr, List.append_nil]
  have hne : ¬ (natChars n).isEmpty := by
    cases h : natChars n with
    | nil => exact absurd h (natChars_ne_nil n)
    | cons a l => simp
  simp only [hne, if_false, List.isEmpty_eq_true]
  rw [if_neg (by simp [List.isEmpty_iff, natChars_ne_nil n])]
  rw [digitsFold_natChars]
  congr 1
  rw [List.drop_left]

theorem natChars_head_digit (n : Nat) :
    ∃ c cs, natChars n = c :: cs ∧ isDigitChar c = true := by
  cases h : natChars n with
  | nil => exact absurd h (natChars_ne_nil n)
  | cons c cs =>
    exact ⟨c, cs, rfl, natChars_digits n c (by rw [h]; simp)⟩

/-- If the remainder does not begin with a digit, `parseIntNum` on the
printed integer followed by the remainder recovers exactly `i`. -/
theorem parseIntNum_intChars (i : Int) (rest : List Char)
    (hr : rest.takeWhile isDigitChar = []) :
    parseIntNum (intChars i ++ rest) = some (i, rest) := by
  unfold intChars
  split
  · rename_i hneg
    rw [List.cons_append]
    rw [parseIntNum]
    simp only [if_pos rfl]
    rw [parseNatNum_natChars _ _ hr]
    have : ((-i).toNat : Int) = -i := Int.toNat_of_nonneg (by omega)
    simp [this]
  · rename_i hpos
    obtain ⟨c, cs, hnc, hdig⟩ := natChars_head_digit i.toNat
    rw [hnc, List.cons_append, parseIntNum]
    have hcne : ¬ c = '-' := by
      intro h; subst h; exact absurd hdig (by decide)
    rw [if_neg hcne, ← List.cons_append, ← hnc, parseNatNum_natChars _ _ hr]
    have : (i.toNat : Int) = i := Int.toNat_of_nonneg (by omega)
    simp [this]


/-! ### String escaping round-trip -/

theorem hexVal_hexDigitChar (d : Nat) (h : d < 16) :
    hexVal? (hexDigitChar d) = some d := by
  interval_cases d <;> decide

theorem parseJStringBody_quote (cs : List Char) :
    parseJStringBody ('"' :: cs) = some ([], cs) := by
  rw [parseJStringBody.eq_def]
  simp

theorem parseJStringBody_plain {c : Char} (h1 : ¬ c = '"') (h2 : ¬ c = '\\')
    (cs : List Char) :
    parseJStringBody (c :: cs)
      = (parseJStringBody cs).bind fun p => some (c :: p.1, p.2) := by
  rw [parseJStringBody.eq_def]
  simp only [if_neg h1, if_neg h2]
  rfl

theorem parseJStringBody_escShort {k e : Char} (hk : ¬ k = 'u')
    (he : unescapeChar k = some e) (cs : List Char) :
    parseJStringBody ('\\' :: k :: cs)
      = (parseJStringBody cs).bind fun p => some (e :: p.1, p.2) := by
  rw [parseJStringBody.eq_def]
  simp only [if_neg (by decide : ¬ ('\\' : Char) = '"'), if_pos rfl, if_neg hk, he]
  rfl

theorem parseJStringBody_escU (c : Char) (h8 : c.toNat < 0x20) (cs : List Char) :
    parseJStringBody ('\\' :: 'u' :: '0' :: '0'
       :: hexDigitChar (c.toNat / 16) :: hexDigitChar (c.toNat % 16) :: cs)
      = (parseJStringBody cs).bind fun p => some (c :: p.1, p.2) := by
  rw [parseJStringBody.eq_def]
  simp only [if_neg (by decide : ¬ ('\\' : Char) = '"'), if_pos rfl]
  rw [hex4]
  have hhi : c.toNat / 16 < 16 := by omega
  have hlo : c.toNat % 16 < 16 := Nat.mod_lt _ (by norm_num)
  have h0 : hexVal? '0' = some 0 := by decide
  rw [h0, hexVal_hexDigitChar _ hhi, hexVal_hexDigitChar _ hlo]
  simp only [Option.bind_eq_bind, Option.some_bind]
  have hv : ((0 * 16 + 0) * 16 + c.toNat / 16) * 16 + c.toNat % 16 = c.toNat := by omega
  rw [hv, Char.ofNat_toNat]
  simp

theorem parseJStringBody_escape (s : List Char) (rest : List Char) :
    parseJStringBody (escapeList s ++ '"' :: rest) = some (s, rest) := by
  induction s with
  | nil => simpa [escapeList] using parseJStringBody_quote rest
  | cons c s ih =>
    rw [escapeList, List.append_assoc]
    unfold escapeChar
    by_cases h1 : c = '"'
    · subst h1
      simp only [if_true, if_pos rfl, List.cons_append, List.nil_append]
      rw [parseJStringBody_escShort (by decide) (by rfl), ih]
      rfl
    · rw [if_neg h1]
      by_cases h2 : c = '\\'
      · subst h2
        simp only [if_true, if_pos rfl, List.cons_append, List.nil_append]
        rw [parseJStringBody_escShort (by decide) (by rfl), ih]
        rfl
      · rw [if_neg h2]
        by_cases h3 : c = '\x08'
        · subst h3
          simp only [if_true, if_pos rfl, List.cons_append, List.nil_append]
          rw [parseJStringBody_escShort (by decide) (by rfl), ih]
          rfl
        · rw [if_neg h3]
          by_cases h4 : c = '\t'
          · subst h4
            simp only [if_true, if_pos rfl, List.cons_append, List.nil_append]
            rw [parseJStringBody_escShort (by decide) (by rfl), ih]
            rfl
          · rw [if_neg h4]
            by_cases h5 : c = '\n'
            · subst h5
              simp only [if_true, if_pos rfl, List.cons_append, List.nil_append]
              rw [parseJStringBody_escShort (by decide) (by rfl), ih]
              rfl
            · rw [if_neg h5]
              by_cases h6 : c = '\x0c'
              · subst h6
                simp only [if_true, if_pos rfl, List.cons_append, List.nil_append]
                rw [parseJStringBody_escShort (by decide) (by rfl), ih]
                rfl
              · rw [if_neg h6]
                by_cases h7 : c = '\r'
                · subst h7
                  simp only [if_true, if_pos rfl, List.cons_append, List.nil_append]
                  rw [parseJStringBody_escShort (by decide) (by rfl), ih]
                  rfl
                · rw [if_neg h7]
                  by_cases h8 : c.toNat < 0x20
                  · rw [if_pos h8]
                    simp only [List.cons_append, List.nil_append]
                    rw [parseJStringBody_escU c h8, ih]
                    rfl
                  · rw [if_neg h8]
                    simp only [List.cons_append, List.nil_append]
                    rw [parseJStringBody_plain h1 h2, ih]
                    rfl

theorem parseJString_quoteStr (s : String) (rest : List Char) :
    parseJString (quoteStr s ++ rest) = some (s, rest) := by
  have h : quoteStr s ++ rest = '"' :: (escapeList s.data ++ '"' :: rest) := by
    simp [quoteStr]
  rw [h]
  unfold parseJString
  rw [expectChar, if_pos rfl]
  simp only [Option.bind_eq_bind, Option.some_bind]
  rw [parseJStringBody_escape]
  cases s
  rfl

theorem parseBool_boolChars (b : Bool) (rest : List Char) :
    parseBool (boolChars b ++ rest) = some (b, rest) := by
  cases b <;> simp [boolChars, parseBool, expectSeq]

theorem not_ws_of_digit {c : Char} (h : isDigitChar c = true) : isWsChar c = false := by
  cases h9 : isWsChar c
  · rfl
  · exfalso
    unfold isWsChar at h9
    simp only [Bool.or_eq_true, decide_eq_true_eq] at h9
    rcases h9 with ((h9 | h9) | h9) | h9 <;> subst h9 <;> exact absurd h (by decide)

theorem skipWs_intChars (i : Int) (X : List Char) :
    skipWs (intChars i ++ X) = intChars i ++ X := by
  unfold intChars
  split
  · simp [skipWs, List.dropWhile_cons, isWsChar]
  · obtain ⟨c, cs, hnc, hdig⟩ := natChars_head_digit i.toNat
    rw [hnc, List.cons_append]
    exact skipWs_cons_of_not_ws (not_ws_of_digit hdig) _

theorem dropWhile_ws_intChars (i : Int) (X : List Char) :
    List.dropWhile isWsChar (intChars i ++ X) = intChars i ++ X := by
  have := skipWs_intChars i X
  simpa [skipWs] using this

theorem dropWhile_ws_quoteStr (s : String) (X : List Char) :
    List.dropWhile isWsChar (quoteStr s ++ X) = quoteStr s ++ X := by
  simp +decide [quoteStr, List.dropWhile_cons]

theorem dropWhile_ws_boolChars (b : Bool) (X : List Char) :
    List.dropWhile isWsChar (boolChars b ++ X) = boolChars b ++ X := by
  cases b <;> simp +decide [boolChars, List.dropWhile_cons]

theorem parseTodoObj_item (t : Todo) (rest : List Char) :
    parseTodoObj (todoItemChars t ++ rest) = some (t, rest) := by
  unfold parseTodoObj todoItemChars
  simp only [List.append_assoc, List.cons_append, List.nil_append]
  simp +decide only [skipWs, List.dropWhile_cons, List.takeWhile_cons, expectChar,
    expectKey, expectSeq, dropWhile_ws_intChars, dropWhile_ws_quoteStr,
    dropWhile_ws_boolChars, parseIntNum_intChars, parseJString_quoteStr,
    parseBool_boolChars, Option.bind_eq_bind, Option.some_bind, if_true, if_false,
    List.append_assoc, List.cons_append, List.nil_append]

theorem parseItemsAux_ws {c : Char} (hc : isWsChar c = true) (fuel : Nat) (cs : List Char) :
    parseItemsAux fuel (c :: cs) = parseItemsAux fuel cs := by
  cases fuel with
  | zero => rfl
  | succ fuel =>
    rw [parseItemsAux, parseItemsAux]
    have h : parseTodoObj (c :: cs) = parseTodoObj cs := by
      unfold parseTodoObj
      rw [show skipWs (c :: cs) = skipWs cs from skipWs_cons_of_ws hc cs]
    rw [h]

theorem parseItemsAux_items (rest : List Todo) :
    ∀ (t : Todo) (fuel : Nat) (tail : List Char),
      rest.length + 1 ≤ fuel →
      parseItemsAux fuel (todoItemsChars t rest ++ '\n' :: ']' :: tail)
        = some (t :: rest, tail) := by
  induction rest with
  | nil =>
    intro t fuel tail hf
    match fuel, hf with
    | fuel + 1, _ =>
      rw [todoItemsChars, parseItemsAux]
      rw [parseTodoObj_item]
      simp +decide [skipWs, List.dropWhile_cons]
  | cons u rest ih =>
    intro t fuel tail hf
    match fuel, hf with
    | fuel + 1, hf =>
      rw [todoItemsChars, parseItemsAux]
      simp only [List.append_assoc, List.cons_append, List.nil_append]
      rw [parseTodoObj_item]
      simp +decide only [skipWs, List.dropWhile_cons, Option.bind_eq_bind,
        Option.some_bind, if_true, if_false]
      rw [parseItemsAux_ws (by decide)]
      rw [ih u fuel tail (by simp only [List.length_cons] at hf; omega)]
      rfl

theorem todoItemsChars_head (t : Todo) (rest : List Todo) :
    ∃ Z, todoItemsChars t rest = ' ' :: ' ' :: '{' :: Z := by
  cases rest <;> rw [todoItemsChars] <;> rw [todoItemChars] <;>
    simp only [List.cons_append, List.append_assoc] <;> exact ⟨_, rfl⟩

theorem length_todoItemsChars (t : Todo) (rest : List Todo) :
    rest.length + 1 ≤ (todoItemsChars t rest).length := by
  induction rest generalizing t with
  | nil => rw [todoItemsChars, todoItemChars]; simp
  | cons u rest ih =>
    rw [todoItemsChars]
    have h2 := ih u
    simp only [List.length_append, List.length_cons, List.length_nil] at *
    omega

/-- Round trip of the file codec: parsing the pretty-printed collection
returns it unchanged. -/
theorem parseTodos_stringifyTodos (ts : List Todo) :
    parseTodos (stringifyTodos ts) = some ts := by
  cases ts with
  | nil => rfl
  | cons t rest =>
    rw [stringifyTodos, parseTodos]
    rw [skipWs_cons_of_not_ws (by decide)]
    rw [expectChar, if_pos rfl]
    simp only [Option.bind_eq_bind, Option.some_bind]
    obtain ⟨Z, hZ⟩ := todoItemsChars_head t rest
    have hskip : skipWs ('\n' :: (todoItemsChars t rest ++ ['\n', ']']))
        = '{' :: (Z ++ ['\n', ']']) := by
      rw [hZ]
      simp +decide [skipWs, List.dropWhile_cons]
    rw [hskip]
    have hws : parseItemsAux ((('\n' : Char) :: (todoItemsChars t rest ++ ['\n', ']'])).length + 1)
          ('\n' :: (todoItemsChars t rest ++ ['\n', ']']))
        = parseItemsAux ((('\n' : Char) :: (todoItemsChars t rest ++ ['\n', ']'])).length + 1)
          (todoItemsChars t rest ++ ['\n', ']']) :=
      parseItemsAux_ws (by decide) _ _
    rw [hws]
    have hlen : rest.length + 1 ≤ (('\n' : Char) :: (todoItemsChars t rest ++ ['\n', ']'])).length + 1 := by
      have := length_todoItemsChars t rest
      simp only [List.length_cons, List.length_append]
      omega
    have := parseItemsAux_items rest t _ [] hlen
    simp only [List.append_nil] at this
    rw [show (todoItemsChars t rest ++ ['\n', ']']) = todoItemsChars t rest ++ '\n' :: ']' :: [] from rfl]
    rw [this]
    rfl

/-! ### Store-level lemmas -/

theorem readTodosFromFile_content {cs : List Char} {ts : List Todo}
    (h : parseTodos cs = some ts) :
    readTodosFromFile (.content cs) = (.ok ts, .content cs) := by
  simp [readTodosFromFile, h]

theorem readTodosFromFile_write (ts : List Todo) (fs : FileState) :
    readTodosFromFile (writeTodosToFile ts fs)
      = (.ok ts, .content (stringifyTodos ts)) :=
  readTodosFromFile_content (parseTodos_stringifyTodos ts)

theorem generateUniqueId_content {cs : List Char} {ts : List Todo}
    (h : parseTodos cs = some ts) :
    generateUniqueId (.content cs) = (.ok (nextId ts), .content cs) := by
  unfold generateUniqueId
  rw [readTodosFromFile_content h]
  cases ts <;> rfl

theorem init_le_foldl_max (l : List Todo) :
    ∀ a : Int, a ≤ l.foldl (fun a u => max a u.id) a := by
  induction l with
  | nil => intro a; simp
  | cons u l ih =>
    intro a
    calc a ≤ max a u.id := le_max_left _ _
    _ ≤ l.foldl (fun a u => max a u.id) (max a u.id) := ih _

theorem mem_le_foldl_max (l : List Todo) :
    ∀ (a : Int) (x : Todo), x ∈ l → x.id ≤ l.foldl (fun a u => max a u.id) a := by
  induction l with
  | nil => intro a x hx; simp at hx
  | cons u l ih =>
    intro a x hx
    rcases List.mem_cons.1 hx with h | h
    · subst h
      calc x.id ≤ max a x.id := le_max_right _ _
      _ ≤ l.foldl (fun a u => max a u.id) (max a x.id) := init_le_foldl_max l _
    · exact ih _ x h

theorem le_maxId {t x : Todo} {rest : List Todo} (hx : x ∈ t :: rest) :
    x.id ≤ maxId t rest := by
  unfold maxId
  rcases List.mem_cons.1 hx with h | h
  · subst h; exact init_le_foldl_max rest _
  · exact mem_le_foldl_max rest _ x h

/-! ### List surgery lemmas -/

theorem deleteFirst_length {p : Todo → Bool} {ts : List Todo} {d : Todo}
    (h : ts.find? p = some d) :
    (deleteFirst p ts).length + 1 = ts.length := by
  induction ts with
  | nil => simp [List.find?] at h
  | cons t ts ih =>
    by_cases hp : p t = true
    · rw [deleteFirst, if_pos hp]
      simp
    · rw [List.find?_cons_of_neg _ (by simpa using hp)] at h
      rw [deleteFirst, if_neg hp]
      simp only [List.length_cons]
      rw [ih h]

theorem deleteFirst_sublist (p : Todo → Bool) (ts : List Todo) :
    (deleteFirst p ts).Sublist ts := by
  induction ts with
  | nil => simp [deleteFirst]
  | cons t ts ih =>
    rw [deleteFirst]
    by_cases hp : p t = true
    · simp only [if_pos hp]
      exact List.sublist_cons_of_sublist t (List.Sublist.refl ts)
    · simp only [if_neg hp]
      exact List.Sublist.cons₂ t ih

theorem find?_deleteFirst_none {n : Int} {ts : List Todo} {d : Todo}
    (hw : ts.Pairwise (fun a b => a.id ≠ b.id))
    (h : ts.find? (fun t => idEq t.id (some n)) = some d) :
    (deleteFirst (fun t => idEq t.id (some n)) ts).find? (fun t => idEq t.id (some n))
      = none := by
  induction ts with
  | nil => simp [List.find?] at h
  | cons t ts ih =>
    rcases List.pairwise_cons.1 hw with ⟨hhd, htl⟩
    by_cases hp : idEq t.id (some n) = true
    · rw [deleteFirst, if_pos hp]
      rw [List.find?_eq_none]
      intro x hx hpx
      have hxn : x.id = n := by
        simpa [idEq, beq_iff_eq] using hpx
      have htn : t.id = n := by
        simpa [idEq, beq_iff_eq] using hp
      exact hhd x hx (htn.trans hxn.symm)
    · rw [List.find?_cons_of_neg _ (by simpa using hp)] at h
      rw [deleteFirst, if_neg hp]
      rw [List.find?_cons_of_neg _ (by simpa using hp)]
      exact ih htl h

theorem setFirst_map_id {p : Todo → Bool} {ts : List Todo} {old u : Todo}
    (hfind : ts.find? p = some old) (hid : u.id = old.id) :
    (setFirst p u ts).map Todo.id = ts.map Todo.id := by
  induction ts with
  | nil => simp [List.find?] at hfind
  | cons t ts ih =>
    by_cases hp : p t = true
    · rw [List.find?_cons_of_pos _ hp] at hfind
      simp only [Option.some_inj] at hfind
      subst hfind
      rw [setFirst, if_pos hp]
      simp [hid]
    · rw [List.find?_cons_of_neg _ (by simpa using hp)] at hfind
      rw [setFirst, if_neg hp]
      simp only [List.map_cons]
      rw [ih hfind]

theorem goodIds_iff_map (ts : List Todo) :
    goodIds ts ↔ ((ts.map Todo.id).Pairwise (fun a b => a ≠ b)
      ∧ ∀ i ∈ ts.map Todo.id, 0 < i) := by
  unfold goodIds
  rw [List.pairwise_map]
  simp

theorem goodIds_of_map_eq {ts ts' : List Todo}
    (hmap : ts'.map Todo.id = ts.map Todo.id) (h : goodIds ts) : goodIds ts' := by
  rw [goodIds_iff_map] at *
  rw [hmap]
  exact h

theorem goodIds_sublist {ts ts' : List Todo} (hsub : ts'.Sublist ts)
    (h : goodIds ts) : goodIds ts' := by
  obtain ⟨hpw, hpos⟩ := h
  exact ⟨hpw.sublist hsub, fun t ht => hpos t (hsub.mem ht)⟩

theorem mergeTodo_ok {old u : Todo} {body : ReqBody} (h : mergeTodo old body = .ok u) :
    u.title = (match body.title with
               | .str s => if s = "" then old.title else jsTrim s
               | _ => old.title)
    ∧ u.completed = (if body.completed = .undefined then old.completed
                     else body.completed.truthy)
    ∧ u.id = old.id ∧ u.createTime = old.createTime := by
  obtain ⟨title, completed⟩ := body
  cases title with
  | str s =>
    by_cases hse : s = ""
    · subst hse
      simp [mergeTodo, JVal.truthy] at h
      subst h
      exact ⟨rfl, rfl, rfl, rfl⟩
    · simp [mergeTodo, JVal.truthy, hse] at h
      subst h
      simp [hse]
      rfl
  | undefined =>
    simp [mergeTodo, JVal.truthy] at h
    subst h
    exact ⟨rfl, rfl, rfl, rfl⟩
  | null =>
    simp [mergeTodo, JVal.truthy] at h
    subst h
    exact ⟨rfl, rfl, rfl, rfl⟩
  | bool b =>
    cases b with
    | false =>
      simp [mergeTodo, JVal.truthy] at h
      subst h
      exact ⟨rfl, rfl, rfl, rfl⟩
    | true =>
      simp [mergeTodo, JVal.truthy] at h
  | num n =>
    by_cases hn : n = 0
    · subst hn
      simp [mergeTodo, JVal.truthy] at h
      subst h
      exact ⟨rfl, rfl, rfl, rfl⟩
    · simp [mergeTodo, JVal.truthy, hn] at h

/-- C4: saving any sequence of todos with the Store write operation and
reloading with the Store read operation returns the identical sequence —
same ids, titles, completed flags and timestamps, in the same order —
whatever the prior file state was. -/
theorem C4_store_round_trip (ts : List Todo) (fs : FileState) :
    readTodosFromFile (writeTodosToFile ts fs)
      = (.ok ts, .content (stringifyTodos ts)) :=
  readTodosFromFile_write ts fs

/-- C3: loading from an absent backing file creates the file holding the
empty JSON array and returns the empty collection; loading from a file
whose content does not parse fails with a storage-read error carrying the
offending content, which `GET /todo` surfaces as a 500 response. -/
theorem C3_load_init_or_error :
    (readTodosFromFile .absent = (.ok [], .content (stringifyTodos []))
      ∧ stringifyTodos [] = ['[', ']'])
    ∧ ∀ cs, parseTodos cs = none →
        readTodosFromFile (.content cs) = (.error (.storageRead cs), .content cs)
        ∧ getTodos (.content cs) = (.serverError (.storageRead cs), .content cs)
        ∧ HResult.status (getTodos (.content cs)).1 = 500 := by
  refine ⟨⟨rfl, rfl⟩, fun cs hcs => ?_⟩
  have h1 : readTodosFromFile (.content cs) = (.error (.storageRead cs), .content cs) := by
    simp [readTodosFromFile, hcs]
  have h2 : getTodos (.content cs) = (.serverError (.storageRead cs), .content cs) := by
    simp [getTodos, h1]
  exact ⟨h1, h2, by rw [h2]; rfl⟩

/-- Witness for C3 at the unparsable file content `g`. -/
theorem C3_load_init_or_error_witness :
    readTodosFromFile (.content ['g']) = (.error (.storageRead ['g']), .content ['g'])
    ∧ getTodos (.content ['g']) = (.serverError (.storageRead ['g']), .content ['g']) := by
  have h := C3_load_init_or_error.2 ['g'] (by decide)
  exact ⟨h.1, h.2.1⟩

/-- C5: a POST whose body has no title or a non-string title is rejected
with a 400 response and the file state is returned untouched — no write
happens. -/
theorem C5_post_invalid_title (body : ReqBody) (now : String) (fs : FileState)
    (h : body.title.isStr = false) :
    postTodo body now fs = (.badRequest "创建失败：title 是必填项，且必须是字符串", fs)
    ∧ HResult.status (postTodo body now fs).1 = 400 := by
  obtain ⟨title, completed⟩ := body
  cases title with
  | str s => simp [JVal.isStr] at h
  | undefined => exact ⟨rfl, rfl⟩
  | null => exact ⟨rfl, rfl⟩
  | bool b => exact ⟨rfl, rfl⟩
  | num n => exact ⟨rfl, rfl⟩

/-- Witness for C5 at the body with the non-string title 123. -/
theorem C5_post_invalid_title_witness :
    postTodo ⟨.num 123, .undefined⟩ "T" (.content ['[', ']'])
      = (.badRequest "创建失败：title 是必填项，且必须是字符串", .content ['[', ']']) :=
  (C5_post_invalid_title ⟨.num 123, .undefined⟩ "T" (.content ['[', ']']) rfl).1

/-- C10: a POST whose title is the one-space string passes validation,
answers 201, and stores a todo whose title is the empty string (the trim
happens after the non-empty check). -/
theorem C10_whitespace_title :
    postTodo ⟨.str " ", .undefined⟩ "T" (.content ['[', ']'])
      = (.created "TODO 创建成功" ⟨1, "", false, "T"⟩,
         .content (stringifyTodos [⟨1, "", false, "T"⟩]))
    ∧ (" " : String) ≠ "" ∧ jsTrim " " = ""
    ∧ HResult.status (postTodo ⟨.str " ", .undefined⟩ "T" (.content ['[', ']'])).1 = 201 := by
  refine ⟨by decide, by decide, by decide, by decide⟩

/-- C7: when the path id does not parse to a number (`parseInt` gives
`NaN`), the lookup in GET / PUT / DELETE by id misses every stored todo, so
each answers 404 naming `NaN`, and the file is left unchanged. -/
theorem C7_non_numeric_id_404 (idp : String) (cs : List Char) (ts : List Todo)
    (body : ReqBody) (hnan : jsParseInt idp = none)
    (hparse : parseTodos cs = some ts) :
    getTodoById idp (.content cs)
      = (.notFound "未找到 ID 为 NaN 的 TODO", .content cs)
    ∧ putTodo idp body (.content cs)
      = (.notFound "修改失败：ID 为 NaN 的 TODO 不存在", .content cs)
    ∧ deleteTodo idp (.content cs)
      = (.notFound "删除失败：ID 为 NaN 的 TODO 不存在", .content cs) := by
  have hfind : ts.find? (fun t => idEq t.id none) = none := by
    rw [List.find?_eq_none]
    intro x hx
    simp [idEq]
  refine ⟨?_, ?_, ?_⟩
  · unfold getTodoById
    simp [hnan, readTodosFromFile_content hparse, hfind, showTodoId]
  · unfold putTodo
    simp [hnan, readTodosFromFile_content hparse, hfind, showTodoId]
  · unfold deleteTodo
    simp [hnan, readTodosFromFile_content hparse, hfind, showTodoId]

/-- Witness for C7 at id `abc` over the empty stored collection. -/
theorem C7_non_numeric_id_404_witness :
    getTodoById "abc" (.content ['[', ']'])
      = (.notFound "未找到 ID 为 NaN 的 TODO", .content ['[', ']']) :=
  (C7_non_numeric_id_404 "abc" ['[', ']'] [] ⟨.undefined, .undefined⟩
    (by decide) (by decide)).1

/-- C1: a POST with a valid (truthy string) title and no `completed` field
stores and returns a 201 todo whose id is `nextId` of the stored
collection — 1 when it is empty, the maximal stored id plus one otherwise,
hence strictly above every stored id — whose title is the trimmed request
title, whose completed flag is false, and whose createTime is the creation
timestamp. -/
theorem C1_post_creates_next_id (cs : List Char) (ts : List Todo) (s now : String)
    (hparse : parseTodos cs = some ts) (hs : s ≠ "") :
    ∃ newTodo : Todo,
      postTodo ⟨.str s, .undefined⟩ now (.content cs)
        = (.created "TODO 创建成功" newTodo,
           .content (stringifyTodos (ts ++ [newTodo])))
      ∧ newTodo.id = nextId ts
      ∧ (ts = [] → newTodo.id = 1)
      ∧ newTodo.title = jsTrim s
      ∧ newTodo.completed = false
      ∧ newTodo.createTime = now
      ∧ (∀ x ∈ ts, x.id < newTodo.id)
      ∧ HResult.status (postTodo ⟨.str s, .undefined⟩ now (.content cs)).1 = 201 := by
  have hmain : postTodo ⟨.str s, .undefined⟩ now (.content cs)
      = (.created "TODO 创建成功" ⟨nextId ts, jsTrim s, false, now⟩,
         .content (stringifyTodos (ts ++ [⟨nextId ts, jsTrim s, false, now⟩]))) := by
    unfold postTodo
    simp only [if_neg hs, readTodosFromFile_content hparse,
      generateUniqueId_content hparse, postCompleted, writeTodosToFile]
  refine ⟨⟨nextId ts, jsTrim s, false, now⟩, hmain, rfl, fun h => by rw [h]; rfl,
    rfl, rfl, rfl, ?_, by rw [hmain]; rfl⟩
  intro x hx
  cases ts with
  | nil => simp at hx
  | cons t rest =>
    have := le_maxId (show x ∈ t :: rest from hx)
    show x.id < nextId (t :: rest)
    rw [nextId]
    omega

/-- C2: when a PUT on a stored todo succeeds, the updated todo is the
shallow merge of the stored one with the body — the title is replaced by
the trimmed body title exactly when the body title is truthy, the
completed flag is replaced whenever the body defines `completed` (even by
`false`), and everything else keeps its stored value; in particular a body
carrying only `completed: false` clears the flag and leaves the title
untouched. -/
theorem C2_put_shallow_merge (cs : List Char) (ts : List Todo) (idp : String)
    (old : Todo) (body : ReqBody)
    (hparse : parseTodos cs = some ts)
    (hfind : ts.find? (fun t => idEq t.id (jsParseInt idp)) = some old) :
    (∀ u msg fs1, putTodo idp body (.content cs) = (.okUpdated msg u, fs1) →
        u.title = (match body.title with
                   | .str s => if s = "" then old.title else jsTrim s
                   | _ => old.title)
        ∧ u.completed = (if body.completed = .undefined then old.completed
                         else body.completed.truthy)
        ∧ u.id = old.id ∧ u.createTime = old.createTime)
    ∧ putTodo idp ⟨.undefined, .bool false⟩ (.content cs)
        = (.okUpdated "TODO 修改成功" ⟨old.id, old.title, false, old.createTime⟩,
           .content (stringifyTodos (setFirst (fun t => idEq t.id (jsParseInt idp))
             ⟨old.id, old.title, false, old.createTime⟩ ts))) := by
  constructor
  · intro u msg fs1 hput
    unfold putTodo at hput
    rw [readTodosFromFile_content hparse] at hput
    simp only [hfind] at hput
    cases hmerge : mergeTodo old body with
    | ok u2 =>
      rw [hmerge] at hput
      simp only [Prod.mk.injEq, HResult.okUpdated.injEq] at hput
      obtain ⟨⟨hmsg, hu⟩, hfs⟩ := hput
      subst hu
      exact mergeTodo_ok hmerge
    | error e =>
      rw [hmerge] at hput
      simp at hput
  · unfold putTodo
    rw [readTodosFromFile_content hparse]
    simp only [hfind]
    have hmerge : mergeTodo old ⟨.undefined, .bool false⟩
        = .ok ⟨old.id, old.title, false, old.createTime⟩ := rfl
    rw [hmerge]
    rfl

/-- Witness for C2: on the stored singleton with id 1, a PUT of
`completed: false` alone clears the flag and keeps the title. -/
theorem C2_put_shallow_merge_witness :
    putTodo "1" ⟨.undefined, .bool false⟩
        (.content (stringifyTodos [⟨1, "x", true, "T"⟩]))
      = (.okUpdated "TODO 修改成功" ⟨1, "x", false, "T"⟩,
         .content (stringifyTodos [⟨1, "x", false, "T"⟩])) := by
  have h := (C2_put_shallow_merge (stringifyTodos [⟨1, "x", true, "T"⟩])
    [⟨1, "x", true, "T"⟩] "1" ⟨1, "x", true, "T"⟩ ⟨.undefined, .bool false⟩
    (parseTodos_stringifyTodos _) (by decide)).2
  exact h

/-- C9: a successful PUT never changes the stored todo's id or createTime:
whatever the body, the updated todo keeps both fields of the stored todo it
replaces. -/
theorem C9_put_keeps_id_createTime (cs : List Char) (ts : List Todo) (idp : String)
    (old : Todo) (body : ReqBody)
    (hparse : parseTodos cs = some ts)
    (hfind : ts.find? (fun t => idEq t.id (jsParseInt idp)) = some old) :
    ∀ u msg fs1, putTodo idp body (.content cs) = (.okUpdated msg u, fs1) →
      u.id = old.id ∧ u.createTime = old.createTime := by
  intro u msg fs1 hput
  unfold putTodo at hput
  rw [readTodosFromFile_content hparse] at hput
  simp only [hfind] at hput
  cases hmerge : mergeTodo old body with
  | ok u2 =>
    rw [hmerge] at hput
    simp only [Prod.mk.injEq, HResult.okUpdated.injEq] at hput
    obtain ⟨⟨hmsg, hu⟩, hfs⟩ := hput
    subst hu
    exact (mergeTodo_ok hmerge).2.2
  | error e =>
    rw [hmerge] at hput
    simp at hput

/-- Witness for C9 at a concrete PUT that changes title and flag. -/
theorem C9_put_keeps_id_createTime_witness :
    (⟨1, "y", false, "T"⟩ : Todo).id = (⟨1, "x", true, "T"⟩ : Todo).id
    ∧ (⟨1, "y", false, "T"⟩ : Todo).createTime
        = (⟨1, "x", true, "T"⟩ : Todo).createTime := by
  have h := C9_put_keeps_id_createTime (stringifyTodos [⟨1, "x", true, "T"⟩])
    [⟨1, "x", true, "T"⟩] "1" ⟨1, "x", true, "T"⟩ ⟨.str " y ", .bool false⟩
    (parseTodos_stringifyTodos _) (by decide)
  exact h ⟨1, "y", false, "T"⟩ "TODO 修改成功"
    (.content (stringifyTodos [⟨1, "y", false, "T"⟩])) (by decide)

/-- Witness for C1 on a stored singleton with id 1 and the title needing a
trim. -/
theorem C1_post_creates_next_id_witness :
    ∃ newTodo : Todo,
      postTodo ⟨.str " b ", .undefined⟩ "T2"
          (.content (stringifyTodos [⟨1, "a", false, "T"⟩]))
        = (.created "TODO 创建成功" newTodo,
           .content (stringifyTodos ([⟨1, "a", false, "T"⟩] ++ [newTodo])))
      ∧ newTodo.id = nextId [⟨1, "a", false, "T"⟩]
      ∧ ([⟨1, "a", false, "T"⟩] = ([] : List Todo) → newTodo.id = 1)
      ∧ newTodo.title = jsTrim " b "
      ∧ newTodo.completed = false
      ∧ newTodo.createTime = "T2"
      ∧ (∀ x ∈ ([⟨1, "a", false, "T"⟩] : List Todo), x.id < newTodo.id)
      ∧ HResult.status (postTodo ⟨.str " b ", .undefined⟩ "T2"
          (.content (stringifyTodos [⟨1, "a", false, "T"⟩]))).1 = 201 :=
  C1_post_creates_next_id _ _ " b " "T2" (parseTodos_stringifyTodos _) (by decide)

theorem lt_nextId {ts : List Todo} (x : Todo) (hx : x ∈ ts) : x.id < nextId ts := by
  cases ts with
  | nil => simp at hx
  | cons t rest =>
    have := le_maxId (show x ∈ t :: rest from hx)
    rw [nextId]
    omega

theorem nextId_pos {ts : List Todo} (hpos : ∀ t ∈ ts, 0 < t.id) : 0 < nextId ts := by
  cases ts with
  | nil => decide
  | cons t rest =>
    have h1 : t.id ≤ maxId t rest := le_maxId (List.mem_cons_self t rest)
    have h2 : 0 < t.id := hpos t (List.mem_cons_self t rest)
    rw [nextId]
    omega

/-- C6: deleting a stored id answers 200 and removes exactly that todo:
the collection shrinks by one, a following GET for that id answers 404, a
following GET of the collection reports one fewer; deleting an absent id
answers 404 and leaves the file unchanged. -/
theorem C6_delete_removes (cs : List Char) (ts : List Todo) (idp : String)
    (n : Int) (d : Todo)
    (hparse : parseTodos cs = some ts)
    (hid : jsParseInt idp = some n)
    (hw : ts.Pairwise (fun a b => a.id ≠ b.id))
    (hfind : ts.find? (fun t => idEq t.id (some n)) = some d) :
    deleteTodo idp (.content cs)
      = (.okDeleted ("ID 为 " ++ toString n ++ " 的 TODO 已删除") (some n),
         .content (stringifyTodos (deleteFirst (fun t => idEq t.id (some n)) ts)))
    ∧ HResult.status (deleteTodo idp (.content cs)).1 = 200
    ∧ (deleteFirst (fun t => idEq t.id (some n)) ts).length + 1 = ts.length
    ∧ getTodoById idp
        (.content (stringifyTodos (deleteFirst (fun t => idEq t.id (some n)) ts)))
      = (.notFound ("未找到 ID 为 " ++ toString n ++ " 的 TODO"),
         .content (stringifyTodos (deleteFirst (fun t => idEq t.id (some n)) ts)))
    ∧ HResult.status (getTodoById idp
        (.content (stringifyTodos (deleteFirst (fun t => idEq t.id (some n)) ts)))).1 = 404
    ∧ (getTodos (.content (stringifyTodos
        (deleteFirst (fun t => idEq t.id (some n)) ts)))).1
      = .okList (deleteFirst (fun t => idEq t.id (some n)) ts).length
          (deleteFirst (fun t => idEq t.id (some n)) ts)
    ∧ (∀ idp2 cs2 ts2, parseTodos cs2 = some ts2 →
        ts2.find? (fun t => idEq t.id (jsParseInt idp2)) = none →
        deleteTodo idp2 (.content cs2)
          = (.notFound ("删除失败：ID 为 " ++ showTodoId (jsParseInt idp2)
              ++ " 的 TODO 不存在"), .content cs2)
        ∧ HResult.status (deleteTodo idp2 (.content cs2)).1 = 404) := by
  have hdel : deleteTodo idp (.content cs)
      = (.okDeleted ("ID 为 " ++ toString n ++ " 的 TODO 已删除") (some n),
         .content (stringifyTodos (deleteFirst (fun t => idEq t.id (some n)) ts))) := by
    unfold deleteTodo
    simp only [hid, readTodosFromFile_content hparse, hfind, writeTodosToFile, showTodoId]
  have hget : getTodoById idp
      (.content (stringifyTodos (deleteFirst (fun t => idEq t.id (some n)) ts)))
      = (.notFound ("未找到 ID 为 " ++ toString n ++ " 的 TODO"),
         .content (stringifyTodos (deleteFirst (fun t => idEq t.id (some n)) ts))) := by
    unfold getTodoById
    simp only [hid, readTodosFromFile_content (parseTodos_stringifyTodos _),
      find?_deleteFirst_none hw hfind, showTodoId]
  refine ⟨hdel, by rw [hdel]; rfl, deleteFirst_length hfind, hget, by rw [hget]; rfl, ?_, ?_⟩
  · unfold getTodos
    rw [readTodosFromFile_content (parseTodos_stringifyTodos _)]
  · intro idp2 cs2 ts2 hp2 hf2
    have h404 : deleteTodo idp2 (.content cs2)
        = (.notFound ("删除失败：ID 为 " ++ showTodoId (jsParseInt idp2)
            ++ " 的 TODO 不存在"), .content cs2) := by
      unfold deleteTodo
      simp only [readTodosFromFile_content hp2, hf2]
    exact ⟨h404, by rw [h404]; rfl⟩

/-- Witness for C6 on a stored pair of todos with ids 1 and 2, deleting 1. -/
theorem C6_delete_removes_witness :
    deleteTodo "1" (.content (stringifyTodos
        [⟨1, "x", false, "T"⟩, ⟨2, "y", true, "U"⟩]))
      = (.okDeleted ("ID 为 " ++ toString (1 : Int) ++ " 的 TODO 已删除") (some 1),
         .content (stringifyTodos [⟨2, "y", true, "U"⟩]))
    ∧ getTodoById "1" (.content (stringifyTodos [⟨2, "y", true, "U"⟩]))
      = (.notFound ("未找到 ID 为 " ++ toString (1 : Int) ++ " 的 TODO"),
         .content (stringifyTodos [⟨2, "y", true, "U"⟩])) := by
  have h := C6_delete_removes
    (stringifyTodos [⟨1, "x", false, "T"⟩, ⟨2, "y", true, "U"⟩])
    [⟨1, "x", false, "T"⟩, ⟨2, "y", true, "U"⟩] "1" 1 ⟨1, "x", false, "T"⟩
    (parseTodos_stringifyTodos _) (by decide) (by decide) (by decide)
  have hd : deleteFirst (fun t => idEq t.id (some 1))
      [⟨1, "x", false, "T"⟩, ⟨2, "y", true, "U"⟩] = [⟨2, "y", true, "U"⟩] := by decide
  constructor
  · have h1 := h.1
    rw [hd] at h1
    exact h1
  · have h1 := h.2.2.2.1
    rw [hd] at h1
    exact h1

/-- C8: starting from a backing file holding a collection whose ids are all
unique and positive, each of the five endpoints — run to completion without
interleaving — leaves a backing file holding a collection whose ids are all
unique and positive. -/
theorem C8_endpoints_preserve_invariant (fs : FileState) (hok : StateOk fs) :
    StateOk (getTodos fs).2
    ∧ (∀ idp, StateOk (getTodoById idp fs).2)
    ∧ (∀ body now, StateOk (postTodo body now fs).2)
    ∧ (∀ idp body, StateOk (putTodo idp body fs).2)
    ∧ (∀ idp, StateOk (deleteTodo idp fs).2) := by
  obtain ⟨cs, ts, rfl, hparse, hgood⟩ := hok
  have hstate : StateOk (.content cs) := ⟨cs, ts, rfl, hparse, hgood⟩
  refine ⟨?_, ?_, ?_, ?_, ?_⟩
  · unfold getTodos
    rw [readTodosFromFile_content hparse]
    exact hstate
  · intro idp
    unfold getTodoById
    simp only [readTodosFromFile_content hparse]
    cases hf : ts.find? (fun t => idEq t.id (jsParseInt idp)) with
    | none => simp only [hf]; exact hstate
    | some t => simp only [hf]; exact hstate
  · intro body now
    obtain ⟨title, completed⟩ := body
    cases title with
    | undefined => exact hstate
    | null => exact hstate
    | bool b => exact hstate
    | num m => exact hstate
    | str s =>
      by_cases hse : s = ""
      · subst hse
        unfold postTodo
        simp only [if_pos rfl]
        exact hstate
      · unfold postTodo
        simp only [if_neg hse, readTodosFromFile_content hparse,
          generateUniqueId_content hparse, writeTodosToFile]
        refine ⟨_, _, rfl, parseTodos_stringifyTodos _, ?_, ?_⟩
        · rw [List.pairwise_append]
          refine ⟨hgood.1, by simp, ?_⟩
          intro a ha b hb
          simp only [List.mem_singleton] at hb
          subst hb
          exact (lt_nextId a ha).ne
        · intro t ht
          rcases List.mem_append.1 ht with h | h
          · exact hgood.2 t h
          · simp only [List.mem_singleton] at h
            subst h
            exact nextId_pos hgood.2
  · intro idp body
    unfold putTodo
    simp only [readTodosFromFile_content hparse]
    cases hf : ts.find? (fun t => idEq t.id (jsParseInt idp)) with
    | none => simp only [hf]; exact hstate
    | some old =>
      simp only [hf]
      cases hm : mergeTodo old body with
      | error e => simp only [hm]; exact hstate
      | ok u =>
        simp only [hm, writeTodosToFile]
        exact ⟨_, _, rfl, parseTodos_stringifyTodos _,
          goodIds_of_map_eq (setFirst_map_id hf (mergeTodo_ok hm).2.2.1) hgood⟩
  · intro idp
    unfold deleteTodo
    simp only [readTodosFromFile_content hparse]
    cases hf : ts.find? (fun t => idEq t.id (jsParseInt idp)) with
    | none => simp only [hf]; exact hstate
    | some d =>
      simp only [hf, writeTodosToFile]
      exact ⟨_, _, rfl, parseTodos_stringifyTodos _,
        goodIds_sublist (deleteFirst_sublist _ _) hgood⟩

/-- Witness for C8 on the file holding the singleton collection with id 1. -/
theorem C8_endpoints_preserve_invariant_witness :
    StateOk (getTodos (.content (stringifyTodos [⟨1, "x", false, "T"⟩]))).2
    ∧ StateOk (postTodo ⟨.str "y", .undefined⟩ "T2"
        (.content (stringifyTodos [⟨1, "x", false, "T"⟩]))).2
    ∧ StateOk (deleteTodo "1"
        (.content (stringifyTodos [⟨1, "x", false, "T"⟩]))).2 := by
  have h := C8_endpoints_preserve_invariant
    (.content (stringifyTodos [⟨1, "x", false, "T"⟩]))
    ⟨stringifyTodos [⟨1, "x", false, "T"⟩], [⟨1, "x", false, "T"⟩], rfl,
      parseTodos_stringifyTodos _, by decide⟩
  exact ⟨h.1, h.2.2.1 ⟨.str "y", .undefined⟩ "T2", h.2.2.2.2 "1"⟩
